import Mathlib

/-!
Verification of the betamax capture-and-decode pipeline: the escape-sequence
key decoder (`key_mapper.py`), the terminal-response filter
(`response_filter.py`), the replay-script generator (`keys_generator.py`) and
the keystroke logger of the session recorder (`recorder.py`).

Byte strings are modelled as `List Nat` (each entry one byte), key names as
`String`, wall-clock timestamps as exact rationals in seconds (the `QTime`
type below), and Python ints as `Int`.  Each definition is a direct
translation of the corresponding Python function.
-/

set_option maxRecDepth 100000

namespace Betamax

/-- An exact rational point in time, `num / den` seconds with `den` kept
positive by construction.  Values are not normalized, so every operation is
plain integer arithmetic. -/
structure QTime where
  num : Int
  den : Int
deriving DecidableEq, Repr

/-- Exact subtraction of time values. -/
def QTime.sub (a b : QTime) : QTime :=
  ⟨a.num * b.den - b.num * a.den, a.den * b.den⟩

/-- Python `int((t2 - t1) * 1000)`: exact multiplication by 1000 followed by
truncation toward zero (`Int.div` is T-division, the semantics of Python
`int()` on a real value; the denominator is positive). -/
def pyIntMs (q : QTime) : Int := Int.div (q.num * 1000) q.den

/-! ## KeyMapper (`key_mapper.py`)

`KeyMapper.ESCAPE_SEQUENCES`, in source (dict insertion) order. -/

def escapeSequences : List (List Nat × String) := [
  ([27, 91, 49, 59, 50, 65], "S-Up"),
  ([27, 91, 49, 59, 50, 66], "S-Down"),
  ([27, 91, 49, 59, 50, 67], "S-Right"),
  ([27, 91, 49, 59, 50, 68], "S-Left"),
  ([27, 91, 49, 59, 51, 65], "M-Up"),
  ([27, 91, 49, 59, 51, 66], "M-Down"),
  ([27, 91, 49, 59, 51, 67], "M-Right"),
  ([27, 91, 49, 59, 51, 68], "M-Left"),
  ([27, 91, 49, 59, 53, 65], "C-Up"),
  ([27, 91, 49, 59, 53, 66], "C-Down"),
  ([27, 91, 49, 59, 53, 67], "C-Right"),
  ([27, 91, 49, 59, 53, 68], "C-Left"),
  ([27, 91, 49, 59, 54, 65], "C-S-Up"),
  ([27, 91, 49, 59, 54, 66], "C-S-Down"),
  ([27, 91, 49, 59, 54, 67], "C-S-Right"),
  ([27, 91, 49, 59, 54, 68], "C-S-Left"),
  ([27, 91, 49, 59, 52, 65], "M-S-Up"),
  ([27, 91, 49, 59, 52, 66], "M-S-Down"),
  ([27, 91, 49, 59, 52, 67], "M-S-Right"),
  ([27, 91, 49, 59, 52, 68], "M-S-Left"),
  ([27, 91, 49, 59, 55, 65], "C-M-Up"),
  ([27, 91, 49, 59, 55, 66], "C-M-Down"),
  ([27, 91, 49, 59, 55, 67], "C-M-Right"),
  ([27, 91, 49, 59, 55, 68], "C-M-Left"),
  ([27, 79, 80], "F1"),
  ([27, 79, 81], "F2"),
  ([27, 79, 82], "F3"),
  ([27, 79, 83], "F4"),
  ([27, 91, 49, 53, 126], "F5"),
  ([27, 91, 49, 55, 126], "F6"),
  ([27, 91, 49, 56, 126], "F7"),
  ([27, 91, 49, 57, 126], "F8"),
  ([27, 91, 50, 48, 126], "F9"),
  ([27, 91, 50, 49, 126], "F10"),
  ([27, 91, 50, 51, 126], "F11"),
  ([27, 91, 50, 52, 126], "F12"),
  ([27, 91, 49, 59, 50, 80], "S-F1"),
  ([27, 91, 49, 59, 50, 81], "S-F2"),
  ([27, 91, 49, 59, 50, 82], "S-F3"),
  ([27, 91, 49, 59, 50, 83], "S-F4"),
  ([27, 91, 49, 53, 59, 50, 126], "S-F5"),
  ([27, 91, 49, 55, 59, 50, 126], "S-F6"),
  ([27, 91, 49, 56, 59, 50, 126], "S-F7"),
  ([27, 91, 49, 57, 59, 50, 126], "S-F8"),
  ([27, 91, 50, 48, 59, 50, 126], "S-F9"),
  ([27, 91, 50, 49, 59, 50, 126], "S-F10"),
  ([27, 91, 50, 51, 59, 50, 126], "S-F11"),
  ([27, 91, 50, 52, 59, 50, 126], "S-F12"),
  ([27, 91, 49, 59, 51, 80], "M-F1"),
  ([27, 91, 49, 59, 51, 81], "M-F2"),
  ([27, 91, 49, 59, 51, 82], "M-F3"),
  ([27, 91, 49, 59, 51, 83], "M-F4"),
  ([27, 91, 49, 53, 59, 51, 126], "M-F5"),
  ([27, 91, 49, 55, 59, 51, 126], "M-F6"),
  ([27, 91, 49, 56, 59, 51, 126], "M-F7"),
  ([27, 91, 49, 57, 59, 51, 126], "M-F8"),
  ([27, 91, 50, 48, 59, 51, 126], "M-F9"),
  ([27, 91, 50, 49, 59, 51, 126], "M-F10"),
  ([27, 91, 50, 51, 59, 51, 126], "M-F11"),
  ([27, 91, 50, 52, 59, 51, 126], "M-F12"),
  ([27, 91, 49, 59, 53, 80], "C-F1"),
  ([27, 91, 49, 59, 53, 81], "C-F2"),
  ([27, 91, 49, 59, 53, 82], "C-F3"),
  ([27, 91, 49, 59, 53, 83], "C-F4"),
  ([27, 91, 49, 53, 59, 53, 126], "C-F5"),
  ([27, 91, 49, 55, 59, 53, 126], "C-F6"),
  ([27, 91, 49, 56, 59, 53, 126], "C-F7"),
  ([27, 91, 49, 57, 59, 53, 126], "C-F8"),
  ([27, 91, 50, 48, 59, 53, 126], "C-F9"),
  ([27, 91, 50, 49, 59, 53, 126], "C-F10"),
  ([27, 91, 50, 51, 59, 53, 126], "C-F11"),
  ([27, 91, 50, 52, 59, 53, 126], "C-F12"),
  ([27, 91, 49, 59, 54, 80], "C-S-F1"),
  ([27, 91, 49, 59, 54, 81], "C-S-F2"),
  ([27, 91, 49, 59, 54, 82], "C-S-F3"),
  ([27, 91, 49, 59, 54, 83], "C-S-F4"),
  ([27, 91, 49, 53, 59, 54, 126], "C-S-F5"),
  ([27, 91, 49, 55, 59, 54, 126], "C-S-F6"),
  ([27, 91, 49, 56, 59, 54, 126], "C-S-F7"),
  ([27, 91, 49, 57, 59, 54, 126], "C-S-F8"),
  ([27, 91, 50, 48, 59, 54, 126], "C-S-F9"),
  ([27, 91, 50, 49, 59, 54, 126], "C-S-F10"),
  ([27, 91, 50, 51, 59, 54, 126], "C-S-F11"),
  ([27, 91, 50, 52, 59, 54, 126], "C-S-F12"),
  ([27, 91, 49, 59, 52, 80], "M-S-F1"),
  ([27, 91, 49, 59, 52, 81], "M-S-F2"),
  ([27, 91, 49, 59, 52, 82], "M-S-F3"),
  ([27, 91, 49, 59, 52, 83], "M-S-F4"),
  ([27, 91, 49, 53, 59, 52, 126], "M-S-F5"),
  ([27, 91, 49, 55, 59, 52, 126], "M-S-F6"),
  ([27, 91, 49, 56, 59, 52, 126], "M-S-F7"),
  ([27, 91, 49, 57, 59, 52, 126], "M-S-F8"),
  ([27, 91, 50, 48, 59, 52, 126], "M-S-F9"),
  ([27, 91, 50, 49, 59, 52, 126], "M-S-F10"),
  ([27, 91, 50, 51, 59, 52, 126], "M-S-F11"),
  ([27, 91, 50, 52, 59, 52, 126], "M-S-F12"),
  ([27, 91, 53, 126], "PPage"),
  ([27, 91, 54, 126], "NPage"),
  ([27, 91, 50, 126], "IC"),
  ([27, 91, 51, 126], "DC"),
  ([27, 91, 53, 59, 53, 126], "C-PPage"),
  ([27, 91, 54, 59, 53, 126], "C-NPage"),
  ([27, 91, 50, 59, 53, 126], "C-IC"),
  ([27, 91, 51, 59, 53, 126], "C-DC"),
  ([27, 91, 53, 59, 51, 126], "M-PPage"),
  ([27, 91, 54, 59, 51, 126], "M-NPage"),
  ([27, 91, 50, 59, 51, 126], "M-IC"),
  ([27, 91, 51, 59, 51, 126], "M-DC"),
  ([27, 91, 65], "Up"),
  ([27, 91, 66], "Down"),
  ([27, 91, 67], "Right"),
  ([27, 91, 68], "Left"),
  ([27, 91, 72], "Home"),
  ([27, 91, 70], "End"),
  ([27, 79, 72], "Home"),
  ([27, 79, 70], "End"),
  ([27, 91, 49, 126], "Home"),
  ([27, 91, 52, 126], "End"),
  ([27, 91, 49, 59, 53, 72], "C-Home"),
  ([27, 91, 49, 59, 53, 70], "C-End"),
  ([27, 91, 49, 59, 51, 72], "M-Home"),
  ([27, 91, 49, 59, 51, 70], "M-End"),
  ([27, 91, 49, 59, 50, 72], "S-Home"),
  ([27, 91, 49, 59, 50, 70], "S-End"),
  ([27, 91, 50, 48, 48, 126], "PasteStart"),
  ([27, 91, 50, 48, 49, 126], "PasteEnd"),
  ([27, 79, 112], "KP0"),
  ([27, 79, 113], "KP1"),
  ([27, 79, 114], "KP2"),
  ([27, 79, 115], "KP3"),
  ([27, 79, 116], "KP4"),
  ([27, 79, 117], "KP5"),
  ([27, 79, 118], "KP6"),
  ([27, 79, 119], "KP7"),
  ([27, 79, 120], "KP8"),
  ([27, 79, 121], "KP9"),
  ([27, 79, 107], "KP+"),
  ([27, 79, 109], "KP-"),
  ([27, 79, 106], "KP*"),
  ([27, 79, 111], "KP/"),
  ([27, 79, 110], "KP."),
  ([27, 79, 77], "KPEnter"),
  ([27, 79, 65], "Up"),
  ([27, 79, 66], "Down"),
  ([27, 79, 67], "Right"),
  ([27, 79, 68], "Left"),
  ([27, 91, 90], "BTab"),
  ([27, 91, 73], "FocusIn"),
  ([27, 91, 79], "FocusOut")]

/-- Stable insertion of an entry into a list sorted by byte-sequence length,
descending; the entry goes after all earlier entries of at least its length. -/
def insertByLen (x : List Nat × String) : List (List Nat × String) → List (List Nat × String)
  | [] => [x]
  | y :: ys => if x.1.length < y.1.length then y :: insertByLen x ys else x :: y :: ys

/-- Stable sort by byte-sequence length, descending: the pre-sorting that
`KeyMapper.__init__` performs once with
`sorted(ESCAPE_SEQUENCES.items(), key=lambda x: len(x[0]), reverse=True)`. -/
def sortByLenDesc : List (List Nat × String) → List (List Nat × String)
  | [] => []
  | x :: xs => insertByLen x (sortByLenDesc xs)

/-- `KeyMapper._sorted_sequences`. -/
def sortedSequences : List (List Nat × String) := sortByLenDesc escapeSequences

/-- `SPECIAL_KEYS` dictionary lookup. -/
def specialKeys (b : Nat) : Option String :=
  if b = 127 then some "BSpace"
  else if b = 8 then some "BSpace"
  else if b = 13 then some "Enter"
  else if b = 10 then some "Enter"
  else if b = 9 then some "Tab"
  else if b = 32 then some "Space"
  else none

/-- Python `chr` for a code point (total stand-in; the code only applies it to
valid code points). -/
def charString (b : Nat) : String := String.singleton (Char.ofNat b)

/-- `CONTROL_CHARS` dictionary lookup: byte 1..26 maps to `C-a` .. `C-z`. -/
def controlChars (b : Nat) : Option String :=
  if 1 ≤ b ∧ b ≤ 26 then some ("C-" ++ charString (96 + b)) else none

/-- One lowercase hex digit. -/
def hexDigit (n : Nat) : String :=
  (["0", "1", "2", "3", "4", "5", "6", "7", "8", "9", "a", "b", "c", "d", "e", "f"]).getD n "0"

/-- Python `f'0x\x7bbyte_val:02x\x7d'` for a byte value below 256. -/
def hexToken (b : Nat) : String := "0x" ++ hexDigit (b / 16) ++ hexDigit (b % 16)

/-- UTF-8 sequence length indicated by a leading byte, from the bit tests in
`parse_input` (`byte_val & 0b11100000 == 0b11000000` and so on). -/
def utf8Len (b : Nat) : Option Nat :=
  if b &&& 224 = 192 then some 2
  else if b &&& 240 = 224 then some 3
  else if b &&& 248 = 240 then some 4
  else none

/-- Whether a byte is a UTF-8 continuation byte (`10xxxxxx`). -/
def isCont (b : Nat) : Prop := 128 ≤ b ∧ b ≤ 191

instance (b : Nat) : Decidable (isCont b) := by unfold isCont; infer_instance

/-- Strict UTF-8 decoding of exactly the given bytes, the model of Python
`bytes.decode('utf-8', errors='strict')` on a slice whose length was taken
from the leading byte: rejects bad continuation bytes, overlong forms,
surrogates and code points above U+10FFFF, as CPython's strict codec does. -/
def utf8DecodeBytes : List Nat → Option Nat
  | [b0, b1] =>
    if 194 ≤ b0 ∧ b0 ≤ 223 ∧ isCont b1 then
      some ((b0 - 192) * 64 + (b1 - 128))
    else none
  | [b0, b1, b2] =>
    if 224 ≤ b0 ∧ b0 ≤ 239 ∧ isCont b1 ∧ isCont b2 then
      if 2048 ≤ (b0 - 224) * 4096 + (b1 - 128) * 64 + (b2 - 128) ∧
          ¬(55296 ≤ (b0 - 224) * 4096 + (b1 - 128) * 64 + (b2 - 128) ∧
            (b0 - 224) * 4096 + (b1 - 128) * 64 + (b2 - 128) ≤ 57343) then
        some ((b0 - 224) * 4096 + (b1 - 128) * 64 + (b2 - 128))
      else none
    else none
  | [b0, b1, b2, b3] =>
    if 240 ≤ b0 ∧ b0 ≤ 247 ∧ isCont b1 ∧ isCont b2 ∧ isCont b3 then
      if 65536 ≤ (b0 - 240) * 262144 + (b1 - 128) * 4096 + (b2 - 128) * 64 + (b3 - 128) ∧
          (b0 - 240) * 262144 + (b1 - 128) * 4096 + (b2 - 128) * 64 + (b3 - 128) ≤ 1114111 then
        some ((b0 - 240) * 262144 + (b1 - 128) * 4096 + (b2 - 128) * 64 + (b3 - 128))
      else none
    else none
  | _ => none

/-- First table entry (in pre-sorted order) whose byte sequence is a prefix of
the buffer: the matching loop `for seq, key_name in self._sorted_sequences`. -/
def findSeq : List (List Nat × String) → List Nat → Option (List Nat × String)
  | [], _ => none
  | p :: rest, buf => if p.1.isPrefixOf buf then some p else findSeq rest buf

/-- Result of one iteration of the `while self._buffer` loop in
`KeyMapper.parse_input`: either one `(key_name, raw_bytes)` event is emitted
and the buffer advances, or the loop stops to wait for more input. -/
inductive StepResult where
  | emit (ev : String × List Nat) (rest : List Nat)
  | wait
deriving DecidableEq, Repr

/-- One iteration of the decode loop of `KeyMapper.parse_input`, evaluated on
the current buffer (empty buffer exits the loop, modelled as a wait). -/
def decodeStep : List Nat → Bool → StepResult
  | [], _ => .wait
  | b :: rest, timeoutOccurred =>
    if b = 27 then
      match findSeq sortedSequences (b :: rest) with
      | some p => .emit (p.2, p.1) (List.drop p.1.length (b :: rest))
      | none =>
        match rest with
        | [] => if timeoutOccurred then .emit ("Escape", [27]) [] else .wait
        | b2 :: rest2 =>
          if 32 ≤ b2 ∧ b2 ≤ 126 then .emit ("M-" ++ charString b2, [b, b2]) rest2
          else .emit ("Escape", [27]) (b2 :: rest2)
    else
      match specialKeys b with
      | some name => .emit (name, [b]) rest
      | none =>
        match controlChars b with
        | some name => .emit (name, [b]) rest
        | none =>
          if 32 ≤ b ∧ b ≤ 126 then .emit (charString b, [b]) rest
          else if 128 ≤ b then
            match utf8Len b with
            | none => .emit (hexToken b, [b]) rest
            | some len =>
              if (b :: rest).length < len then .wait
              else
                match utf8DecodeBytes (List.take len (b :: rest)) with
                | some cp => .emit (charString cp, List.take len (b :: rest)) (List.drop len (b :: rest))
                | none => .emit (hexToken b, [b]) rest
          else .emit (hexToken b, [b]) rest

/-- The decode loop with explicit fuel; `parse_input` runs it with fuel equal
to the buffer length, which suffices because every emitted event consumes at
least one buffered byte. -/
def runDecodeAux : Nat → List Nat → Bool → List (String × List Nat) × List Nat
  | 0, buf, _ => ([], buf)
  | fuel + 1, buf, timeoutOccurred =>
    match decodeStep buf timeoutOccurred with
    | .wait => ([], buf)
    | .emit ev rest =>
      let p := runDecodeAux fuel rest timeoutOccurred
      (ev :: p.1, p.2)

/-- The `while self._buffer` loop of `KeyMapper.parse_input`: returns the
emitted events and the remaining carry-over buffer. -/
def runDecode (buf : List Nat) (timeoutOccurred : Bool) : List (String × List Nat) × List Nat :=
  runDecodeAux buf.length buf timeoutOccurred

/-- `KeyMapper.parse_input` for a mapper constructed with the default
`filter_responses=False`: append the chunk to the carry-over buffer and run
the decode loop. -/
def parseInput (buffer data : List Nat) (timeoutOccurred : Bool) :
    List (String × List Nat) × List Nat :=
  runDecode (buffer ++ data) timeoutOccurred

/-- `KeyMapper.flush`: `parse_input(b'', timeout_occurred=True)`. -/
def flushBuffer (buffer : List Nat) : List (String × List Nat) × List Nat :=
  parseInput buffer [] true

/-! ## ResponseFilter (`response_filter.py`)

`ResponseFilter.RESPONSE_PATTERNS` is a list of byte regexes built from
literal bytes and three quantified character classes (`\d+`, `[\d;]*`,
`[^\x07\x1b]*`).  In every pattern the byte required right after a quantified
class is excluded from that class, so Python's greedy backtracking matcher is
equivalent to "take the maximal run, then require the next literal", which is
what `matchAtoms` implements.  A pattern is a list of atoms. -/

inductive PatAtom where
  | lit (b : Nat)
  | digits1
  | digitSemiStar
  | oscBodyStar
deriving DecidableEq, Repr

/-- Byte class `\d`. -/
def isDigitByte (b : Nat) : Bool := 48 ≤ b ∧ b ≤ 57

/-- Byte class `[\d;]`. -/
def isDigitSemi (b : Nat) : Bool := isDigitByte b || b = 59

/-- Byte class `[^\x07\x1b]`. -/
def isOscBody (b : Nat) : Bool := b ≠ 7 && b ≠ 27

/-- Length of the maximal run of bytes satisfying `p`, with the remaining
suffix. -/
def takeRun (p : Nat → Bool) : List Nat → Nat × List Nat
  | [] => (0, [])
  | b :: rest =>
    if p b then
      let q := takeRun p rest
      (q.1 + 1, q.2)
    else (0, b :: rest)

/-- Match a pattern at the head of the byte list, returning the number of
bytes matched. -/
def matchAtoms : List PatAtom → List Nat → Option Nat
  | [], _ => some 0
  | .lit _ :: _, [] => none
  | .lit b :: as, c :: rest =>
    if c = b then (matchAtoms as rest).map (· + 1) else none
  | .digits1 :: as, xs =>
    let q := takeRun isDigitByte xs
    if q.1 = 0 then none else (matchAtoms as q.2).map (· + q.1)
  | .digitSemiStar :: as, xs =>
    let q := takeRun isDigitSemi xs
    (matchAtoms as q.2).map (· + q.1)
  | .oscBodyStar :: as, xs =>
    let q := takeRun isOscBody xs
    (matchAtoms as q.2).map (· + q.1)

/-- `ResponseFilter.RESPONSE_PATTERNS`, in source order, as atom lists. -/
def responsePatterns : List (List PatAtom × String) := [
  ([.lit 27, .lit 91, .digits1, .lit 59, .digits1, .lit 82], "CPR"),
  ([.lit 27, .lit 91, .lit 63, .digitSemiStar, .lit 99], "DA1"),
  ([.lit 27, .lit 91, .lit 62, .digitSemiStar, .lit 99], "DA2"),
  ([.lit 27, .lit 91, .lit 61, .digitSemiStar, .lit 99], "DA3"),
  ([.lit 27, .lit 93, .digits1, .lit 59, .oscBodyStar, .lit 7], "OSC-BEL"),
  ([.lit 27, .lit 93, .digits1, .lit 59, .oscBodyStar, .lit 27, .lit 92], "OSC-ST"),
  ([.lit 27, .lit 91, .lit 63, .digits1, .lit 59, .digits1, .lit 36, .lit 121], "DECRPM"),
  ([.lit 27, .lit 91, .lit 48, .lit 110], "DSR-OK"),
  ([.lit 27, .lit 91, .lit 51, .lit 110], "DSR-ERR"),
  ([.lit 27, .lit 91, .lit 63, .digits1, .lit 59, .digits1, .lit 59, .digits1, .lit 82], "DECXCPR"),
  ([.lit 27, .lit 91, .digits1, .lit 59, .digits1, .lit 59, .digits1, .lit 116], "XTWINOPS"),
  ([.lit 27, .lit 91, .lit 56, .lit 59, .digits1, .lit 59, .digits1, .lit 116], "XTWINOPS-SIZE")]

/-- Remove every (leftmost, non-overlapping) match of one pattern from the
byte list, the effect of one `pattern.finditer` pass followed by removal of
the matches in reverse position order.  Fuel is the list length; every step
consumes at least one byte. -/
def removeAllAux (pat : List PatAtom) : Nat → List Nat → List Nat
  | 0, xs => xs
  | _, [] => []
  | fuel + 1, x :: xs =>
    match matchAtoms pat (x :: xs) with
    | some (l + 1) => removeAllAux pat fuel (List.drop (l + 1) (x :: xs))
    | some 0 => x :: removeAllAux pat fuel xs
    | none => x :: removeAllAux pat fuel xs

/-- One finditer-and-remove pass for one pattern. -/
def removeAll (pat : List PatAtom) (xs : List Nat) : List Nat :=
  removeAllAux pat xs.length xs

/-- `ResponseFilter.filter`: apply every pattern class, in order, to the
current content. -/
def responseFilter (data : List Nat) : List Nat :=
  responsePatterns.foldl (fun acc p => removeAll p.1 acc) data

/-- `KeyMapper.parse_input` with the `filter_responses` construction option
made explicit: an inbound chunk is passed through `ResponseFilter.filter`
before being appended to the carry-over buffer. -/
def parseInputFiltered (filterResponses : Bool) (buffer data : List Nat)
    (timeoutOccurred : Bool) : List (String × List Nat) × List Nat :=
  runDecode (buffer ++ (if filterResponses then responseFilter data else data)) timeoutOccurred

/-! ## KeysGenerator (`keys_generator.py`)

A recorded keystroke is `(timestamp, key_name, raw_bytes)`; timestamps are
exact rationals in seconds. -/

/-- A `KeystrokeLog` entry. -/
structure Keystroke where
  timestamp : QTime
  key_name : String
  raw_bytes : List Nat
deriving DecidableEq, Repr

/-- `KeysGenerator.TERMINAL_NOISE_KEYS`. -/
def terminalNoiseKeys : List String := ["M-[", "M-]", "M-\\", "M-P"]

/-- `KeysGenerator.AGGREGATABLE_KEYS`. -/
def aggregatableKeys : List String :=
  ["Up", "Down", "Left", "Right",
   "S-Up", "S-Down", "S-Left", "S-Right",
   "C-Up", "C-Down", "C-Left", "C-Right",
   "M-Up", "M-Down", "M-Left", "M-Right",
   "PPage", "NPage", "Home", "End",
   "BSpace", "DC", "Space", "Tab", "BTab",
   "Enter"]

/-- A keystroke that survived noise filtering, with its original log index:
one entry of the list `_get_user_keystrokes` returns. -/
structure UserKeystroke where
  orig_idx : Nat
  timestamp : QTime
  key_name : String
  raw_bytes : List Nat
deriving DecidableEq, Repr

/-- The loop of `KeysGenerator._get_user_keystrokes`, carrying the index of
the current entry, the previous timestamp and the `in_terminal_response`
flag. -/
def userKeystrokesAux : List Keystroke → Nat → Option QTime → Bool → List UserKeystroke
  | [], _, _, _ => []
  | k :: rest, i, prevTime, inResp =>
    let delayMs : Int :=
      match prevTime with
      | none => 0
      | some p => pyIntMs (k.timestamp.sub p)
    if k.key_name = "M-[" ∨ k.key_name = "M-]" ∨ k.key_name = "M-P" then
      userKeystrokesAux rest (i + 1) (some k.timestamp) true
    else
      let inResp2 := if delayMs > 20 then false else inResp
      if k.key_name ∈ terminalNoiseKeys then
        userKeystrokesAux rest (i + 1) (some k.timestamp) inResp2
      else if inResp2 ∧ delayMs < 5 then
        userKeystrokesAux rest (i + 1) (some k.timestamp) inResp2
      else
        ⟨i, k.timestamp, k.key_name, k.raw_bytes⟩ ::
          userKeystrokesAux rest (i + 1) (some k.timestamp) inResp2

/-- `KeysGenerator._get_user_keystrokes`. -/
def userKeystrokes (keystrokes : List Keystroke) : List UserKeystroke :=
  userKeystrokesAux keystrokes 0 none false

/-- One aggregated run, the tuple
`(orig_idx, first_timestamp, key_name, raw_bytes, count, last_timestamp)`. -/
structure AggGroup where
  first_index : Nat
  first_timestamp : QTime
  key_name : String
  raw_bytes : List Nat
  repeat_count : Nat
  last_timestamp : QTime
deriving DecidableEq, Repr

/-- The loop of `KeysGenerator._aggregate_keystrokes`, carrying the current
open group (if any) and the previous timestamp.  A key joins the open group
exactly when it has the same name, the name is aggregatable, a previous
timestamp exists and the gap is at most the threshold; otherwise the open
group is flushed and a fresh group of count 1 starts. -/
def aggregateAux (threshold : Int) :
    List UserKeystroke → Option AggGroup → Option QTime → List AggGroup
  | [], cur, _ =>
    match cur with
    | none => []
    | some g => [g]
  | u :: rest, some g, some p =>
    if g.key_name = u.key_name ∧ u.key_name ∈ aggregatableKeys ∧
        pyIntMs (u.timestamp.sub p) ≤ threshold then
      aggregateAux threshold rest
        (some ⟨g.first_index, g.first_timestamp, g.key_name, g.raw_bytes,
               g.repeat_count + 1, u.timestamp⟩)
        (some u.timestamp)
    else
      g :: aggregateAux threshold rest
        (some ⟨u.orig_idx, u.timestamp, u.key_name, u.raw_bytes, 1, u.timestamp⟩)
        (some u.timestamp)
  | u :: rest, cur, _ =>
    (match cur with
     | none => []
     | some g => [g]) ++
    aggregateAux threshold rest
      (some ⟨u.orig_idx, u.timestamp, u.key_name, u.raw_bytes, 1, u.timestamp⟩)
      (some u.timestamp)

/-- `KeysGenerator._aggregate_keystrokes`. -/
def aggregateKeystrokes (threshold : Int) (us : List UserKeystroke) : List AggGroup :=
  aggregateAux threshold us none none

/-- The inter-keystroke delays kept by `_calculate_median_delay`: delays
between consecutive filtered keystrokes that lie inside
`[min_delay, max_delay]`. -/
def collectDelays (minDelay maxDelay : Int) : List UserKeystroke → Option QTime → List Int
  | [], _ => []
  | u :: rest, prev =>
    match prev with
    | none => collectDelays minDelay maxDelay rest (some u.timestamp)
    | some p =>
      let d := pyIntMs (u.timestamp.sub p)
      if minDelay ≤ d ∧ d ≤ maxDelay then
        d :: collectDelays minDelay maxDelay rest (some u.timestamp)
      else
        collectDelays minDelay maxDelay rest (some u.timestamp)

/-- Stable ascending insertion, for `delays.sort()`. -/
def insertIntLe (x : Int) : List Int → List Int
  | [] => [x]
  | y :: ys => if x ≤ y then x :: y :: ys else y :: insertIntLe x ys

/-- Ascending sort, the model of Python `list.sort()` on integers. -/
def sortInts : List Int → List Int
  | [] => []
  | x :: xs => insertIntLe x (sortInts xs)

/-- `KeysGenerator._calculate_median_delay`.  Python `//` is floor
division (`Int.fdiv`). -/
def calculateMedianDelay (keystrokes : List Keystroke) (minDelay maxDelay : Int) : Int :=
  let us := userKeystrokes keystrokes
  if us.length < 2 then 100
  else
    let delays := collectDelays minDelay maxDelay us none
    if delays = [] then 100
    else
      let sorted := sortInts delays
      let mid := sorted.length / 2
      if sorted.length % 2 = 0 then
        Int.fdiv (sorted.getD (mid - 1) 0 + sorted.getD mid 0) 2
      else sorted.getD mid 0

/-- `KeysGenerator._calculate_duration`. -/
def calculateDuration (keystrokes : List Keystroke) : QTime :=
  if keystrokes.length < 2 then ⟨0, 1⟩
  else (((keystrokes.getLast?).map Keystroke.timestamp).getD ⟨0, 1⟩).sub
       (((keystrokes.head?).map Keystroke.timestamp).getD ⟨0, 1⟩)

/-- Model of the Python format `f'...:.1f'` applied to the exact rational:
one decimal digit, rounding half to even as CPython's fixed-point float
formatting does (the denominator is positive). -/
def formatQTime1 (q : QTime) : String :=
  let a := q.num * 10
  let d := q.den
  let f := Int.fdiv a d
  let r := a - f * d
  let n := if 2 * r < d then f
           else if 2 * r > d then f + 1
           else if Int.emod f 2 = 0 then f else f + 1
  let m := n.natAbs
  (if n < 0 then "-" else "") ++ toString (m / 10) ++ "." ++ toString (m % 10)

/-- Generation options of `KeysGenerator.__init__`, with the same defaults.
`fixed_delay` and `gif_output` keep Python truthiness: `Some 0` and the empty
string count as unset. -/
structure GenOptions where
  cols : Int
  rows : Int
  auto_frame : Bool
  frame_markers : List Nat
  min_delay : Int
  max_delay : Int
  fixed_delay : Option Int
  gif_output : Option String
  command : String
  frame_key : String
  aggregate : Bool
  aggregate_threshold : Int
deriving DecidableEq, Repr

/-- The option defaults applied by `KeysGenerator.__init__` when the options
dict is empty. -/
def defaultOptions : GenOptions :=
  ⟨80, 24, false, [], 50, 2000, none, none, "", "C-g", true, 200⟩

/-- Python truthiness of `self.fixed_delay`. -/
def fixedDelayTruthy (o : GenOptions) : Bool :=
  match o.fixed_delay with
  | none => false
  | some d => d ≠ 0

/-- Python truthiness of `self.gif_output`. -/
def gifOutputTruthy (o : GenOptions) : Bool :=
  match o.gif_output with
  | none => false
  | some s => s ≠ ""

/-- The emission loop of `KeysGenerator.generate` over the (possibly
aggregated) groups, carrying `prev_time`. -/
def emitAux (o : GenOptions) (defaultDelay : Int) :
    List AggGroup → Option QTime → List String
  | [], _ => []
  | g :: rest, prevTime =>
    if g.key_name = o.frame_key ∧ g.first_index ∈ o.frame_markers then
      "@frame" :: emitAux o defaultDelay rest (some g.last_timestamp)
    else
      let keyOutput :=
        if g.repeat_count > 1 then g.key_name ++ " " ++ toString g.repeat_count
        else g.key_name
      let body :=
        match prevTime with
        | some p =>
          if fixedDelayTruthy o = false then
            let rawDelay := pyIntMs (g.first_timestamp.sub p)
            let delayMs :=
              if rawDelay < o.min_delay then 0
              else if rawDelay > o.max_delay then o.max_delay
              else rawDelay
            if delayMs ≥ 500 then ["@sleep:" ++ toString delayMs, keyOutput]
            else if delayMs > 0 ∧ delayMs ≠ defaultDelay then
              if g.repeat_count > 1 then
                [(if delayMs ≥ 500 then "@sleep:" ++ toString delayMs
                  else "# delay:" ++ toString delayMs ++ "ms"),
                 keyOutput]
              else [g.key_name ++ "@" ++ toString delayMs]
            else [keyOutput]
          else [keyOutput]
        | none => [keyOutput]
      body ++ (if o.auto_frame then ["@frame"] else []) ++
        emitAux o defaultDelay rest (some g.last_timestamp)

/-- `KeysGenerator.generate`, as the list of emitted lines (the file content
is these lines joined with newlines, plus a trailing newline). -/
def generateLines (keystrokes : List Keystroke) (o : GenOptions) : List String :=
  let headerLines :=
    ["# Recorded with betamax record"] ++
    (if o.command ≠ "" then ["# Command: " ++ o.command] else []) ++
    (if keystrokes ≠ [] then
      ["# Duration: " ++ formatQTime1 (calculateDuration keystrokes) ++ "s",
       "# Keystrokes: " ++ toString (userKeystrokes keystrokes).length]
     else []) ++
    [""] ++
    ["@set:cols:" ++ toString o.cols, "@set:rows:" ++ toString o.rows]
  let defaultDelay :=
    if fixedDelayTruthy o then (o.fixed_delay).getD 0
    else calculateMedianDelay keystrokes o.min_delay o.max_delay
  let settingLines := ["@set:delay:" ++ toString defaultDelay, ""]
  let recordStart := if gifOutputTruthy o then ["@record:start"] else []
  let us := userKeystrokes keystrokes
  let aggregated :=
    if o.aggregate then aggregateKeystrokes o.aggregate_threshold us
    else us.map (fun u => ⟨u.orig_idx, u.timestamp, u.key_name, u.raw_bytes, 1, u.timestamp⟩)
  let bodyLines := emitAux o defaultDelay aggregated none
  let recordStop :=
    if gifOutputTruthy o then ["@record:stop:" ++ ((o.gif_output).getD "")] else []
  headerLines ++ settingLines ++ recordStart ++ bodyLines ++ recordStop

/-- `KeysGenerator.generate` as the final file text. -/
def generate (keystrokes : List Keystroke) (o : GenOptions) : String :=
  String.intercalate "\n" (generateLines keystrokes o) ++ "\n"

/-- Prefix test on character lists (a computable stand-in for
`String.isPrefixOf`, used to detect key-token lines). -/
def listIsPrefix : List Char → List Char → Bool
  | [], _ => true
  | _ :: _, [] => false
  | a :: as, b :: bs => if a = b then listIsPrefix as bs else false

/-- Whether one string is a prefix of another, on the character lists. -/
def strPrefix (p s : String) : Bool := listIsPrefix p.toList s.toList

/-! ## TerminalRecorder keystroke logging (`recorder.py`) -/

/-- The recording state touched by `TerminalRecorder._log_keys`: the
keystroke log and the frame-marker index list. -/
structure RecState where
  keystrokes : List Keystroke
  frame_markers : List Nat
deriving DecidableEq, Repr

/-- `TerminalRecorder._log_keys`: append each decoded `(key_name, raw_bytes)`
event with the current wall-clock time; when the key name equals the
configured frame key, also record its index as a frame marker. -/
def logKeys (frameKey : String) (st : RecState) (now : QTime)
    (keys : List (String × List Nat)) : RecState :=
  keys.foldl
    (fun s kv =>
      let ks := s.keystrokes ++ [⟨now, kv.1, kv.2⟩]
      ⟨ks,
       if kv.1 = frameKey then s.frame_markers ++ [ks.length - 1]
       else s.frame_markers⟩)
    st

/-- A whole sequence of `_log_keys` calls starting from the fresh recorder
state (`keystrokes = []`, `frame_markers = []`). -/
def runLog (frameKey : String) (calls : List (QTime × List (String × List Nat))) : RecState :=
  calls.foldl (fun s c => logKeys frameKey s c.1 c.2) ⟨[], []⟩

/-- The state invariant `_log_keys` maintains: frame-marker indices are
strictly increasing, and each points at a logged keystroke whose key name is
the configured frame key. -/
abbrev MarkersInv (frameKey : String) (st : RecState) : Prop :=
  st.frame_markers.Pairwise (· < ·) ∧
  ∀ i ∈ st.frame_markers, ∃ k, st.keystrokes[i]? = some k ∧ k.key_name = frameKey

/-- The standard UTF-8 encoding of a Unicode code point (the byte string
Python `chr(cp).encode('utf-8')` produces). -/
def utf8Encode (cp : Nat) : List Nat :=
  if cp < 128 then [cp]
  else if cp < 2048 then [192 + cp / 64, 128 + cp % 64]
  else if cp < 65536 then [224 + cp / 4096, 128 + cp / 64 % 64, 128 + cp % 64]
  else [240 + cp / 262144, 128 + cp / 4096 % 64, 128 + cp / 64 % 64, 128 + cp % 64]

/-- Code points whose UTF-8 encoding is 2, 3 or 4 bytes long: U+0080 through
U+10FFFF, excluding the surrogate range. -/
def ValidMultibyteCP (cp : Nat) : Prop :=
  (128 ≤ cp ∧ cp ≤ 2047) ∨
  (2048 ≤ cp ∧ cp ≤ 65535 ∧ ¬(55296 ≤ cp ∧ cp ≤ 57343)) ∨
  (65536 ≤ cp ∧ cp ≤ 1114111)

instance (cp : Nat) : Decidable (ValidMultibyteCP cp) := by
  unfold ValidMultibyteCP; infer_instance

/-! ## Lemmas about the decode loop -/

/-- The concatenation of the `raw_bytes` of a list of decoded events. -/
def rawBytesConcat (evs : List (String × List Nat)) : List Nat :=
  (evs.map Prod.snd).flatten

theorem findSeq_eq_some {l : List (List Nat × String)} {buf : List Nat}
    {p : List Nat × String} (h : findSeq l buf = some p) :
    p ∈ l ∧ p.1.isPrefixOf buf = true := by
  induction l with
  | nil => simp [findSeq] at h
  | cons q rest ih =>
    unfold findSeq at h
    by_cases hq : q.1.isPrefixOf buf = true
    · rw [if_pos hq] at h
      obtain rfl : q = p := by injection h
      exact ⟨List.mem_cons_self _ _, hq⟩
    · rw [if_neg hq] at h
      obtain ⟨hm, hp⟩ := ih h
      exact ⟨List.mem_cons_of_mem _ hm, hp⟩

theorem table_seqs_nonempty : ∀ p ∈ sortedSequences, p.1 ≠ ([] : List Nat) := by decide

theorem utf8Len_pos {b len : Nat} (h : utf8Len b = some len) : 0 < len := by
  unfold utf8Len at h
  split at h
  · injection h with h; omega
  · split at h
    · injection h with h; omega
    · split at h
      · injection h with h; omega
      · exact absurd h (by simp)

/-- Every event emitted by one iteration of the decode loop carries exactly
the bytes removed from the front of the buffer, and at least one byte. -/
theorem decodeStep_emit_spec {buf rest : List Nat} {t : Bool} {name : String}
    {raw : List Nat} (h : decodeStep buf t = .emit (name, raw) rest) :
    raw ++ rest = buf ∧ raw ≠ [] := by
  match buf with
  | [] => exact absurd h (by simp [decodeStep])
  | b :: bs =>
    simp only [decodeStep] at h
    split at h
    case isTrue hb =>
      split at h
      case h_1 p hfind =>
        obtain ⟨hmem, hpre⟩ := findSeq_eq_some hfind
        obtain ⟨tl, htl⟩ := List.isPrefixOf_iff_prefix.mp hpre
        injection h with h1 h2
        injection h1 with h1a h1b
        subst h1b
        refine ⟨?_, table_seqs_nonempty p hmem⟩
        rw [← h2, ← htl, List.drop_left]
      case h_2 hfind =>
        split at h
        · split at h
          · injection h with h1 h2
            injection h1 with h1a h1b
            subst h1b; subst h2; subst hb
            exact ⟨rfl, by simp⟩
          · exact absurd h (by simp)
        · split at h
          · injection h with h1 h2
            injection h1 with h1a h1b
            subst h1b; subst h2; subst hb
            exact ⟨rfl, by simp⟩
          · injection h with h1 h2
            injection h1 with h1a h1b
            subst h1b; subst h2; subst hb
            exact ⟨rfl, by simp⟩
    case isFalse hb =>
      split at h
      case h_1 nm hsp =>
        injection h with h1 h2
        injection h1 with h1a h1b
        subst h1b; subst h2
        exact ⟨rfl, by simp⟩
      case h_2 hsp =>
        split at h
        case h_1 nm hcc =>
          injection h with h1 h2
          injection h1 with h1a h1b
          subst h1b; subst h2
          exact ⟨rfl, by simp⟩
        case h_2 hcc =>
          split at h
          · injection h with h1 h2
            injection h1 with h1a h1b
            subst h1b; subst h2
            exact ⟨rfl, by simp⟩
          · split at h
            · split at h
              case h_1 hlen => 
                injection h with h1 h2
                injection h1 with h1a h1b
                subst h1b; subst h2
                exact ⟨rfl, by simp⟩
              case h_2 len hlen =>
                split at h
                · exact absurd h (by simp)
                · split at h
                  case h_1 cp hdec =>
                    injection h with h1 h2
                    injection h1 with h1a h1b
                    subst h1b; subst h2
                    refine ⟨List.take_append_drop len (b :: bs), ?_⟩
                    have := utf8Len_pos hlen
                    cases len with
                    | zero => omega
                    | succ n => simp [List.take]
                  case h_2 hdec =>
                    injection h with h1 h2
                    injection h1 with h1a h1b
                    subst h1b; subst h2
                    exact ⟨rfl, by simp⟩
            · injection h with h1 h2
              injection h1 with h1a h1b
              subst h1b; subst h2
              exact ⟨rfl, by simp⟩

/-- Forward progress: an emitted event strictly shrinks the buffer. -/
theorem decodeStep_emit_length {buf rest : List Nat} {t : Bool} {ev : String × List Nat}
    (h : decodeStep buf t = .emit ev rest) : rest.length < buf.length := by
  obtain ⟨nm, raw⟩ := ev
  obtain ⟨happ, hne⟩ := decodeStep_emit_spec h
  have hlen := congrArg List.length happ
  rw [List.length_append] at hlen
  have : raw.length ≠ 0 := fun h0 => hne (List.eq_nil_of_length_eq_zero h0)
  omega

theorem runDecodeAux_succ_wait {buf : List Nat} {t : Bool} {fuel : Nat}
    (h : decodeStep buf t = .wait) : runDecodeAux (fuel + 1) buf t = ([], buf) := by
  simp only [runDecodeAux]
  rw [h]

theorem runDecodeAux_succ_emit {buf rest : List Nat} {t : Bool} {ev : String × List Nat}
    {fuel : Nat} (h : decodeStep buf t = .emit ev rest) :
    runDecodeAux (fuel + 1) buf t =
      (ev :: (runDecodeAux fuel rest t).1, (runDecodeAux fuel rest t).2) := by
  simp only [runDecodeAux]
  rw [h]

/-- Any fuel at least the buffer length computes the full decode loop. -/
theorem runDecodeAux_eq_of_le {t : Bool} :
    ∀ fuel (buf : List Nat), buf.length ≤ fuel → runDecodeAux fuel buf t = runDecode buf t := by
  intro fuel
  induction fuel using Nat.strong_induction_on with
  | _ fuel ih =>
    intro buf hle
    match fuel with
    | 0 =>
      have hb : buf = [] := List.eq_nil_of_length_eq_zero (Nat.le_zero.mp hle)
      subst hb; rfl
    | fuel + 1 =>
      cases buf with
      | nil => rfl
      | cons b bs =>
        show runDecodeAux (fuel + 1) (b :: bs) t = runDecodeAux (bs.length + 1) (b :: bs) t
        cases hstep : decodeStep (b :: bs) t with
        | wait => rw [runDecodeAux_succ_wait hstep, runDecodeAux_succ_wait hstep]
        | emit ev rest =>
          have hlt := decodeStep_emit_length hstep
          rw [runDecodeAux_succ_emit hstep, runDecodeAux_succ_emit hstep]
          simp only [List.length_cons] at hlt hle
          have h1 : runDecodeAux fuel rest t = runDecode rest t :=
            ih fuel (by omega) rest (by omega)
          have h2 : runDecodeAux bs.length rest t = runDecode rest t :=
            ih bs.length (by omega) rest (by omega)
          rw [h1, h2]

theorem runDecode_wait {buf : List Nat} {t : Bool} (h : decodeStep buf t = .wait) :
    runDecode buf t = ([], buf) := by
  cases buf with
  | nil => rfl
  | cons b bs => exact runDecodeAux_succ_wait h

theorem runDecode_emit {buf rest : List Nat} {t : Bool} {ev : String × List Nat}
    (h : decodeStep buf t = .emit ev rest) :
    runDecode buf t = (ev :: (runDecode rest t).1, (runDecode rest t).2) := by
  cases buf with
  | nil => exact absurd h (by simp [decodeStep])
  | cons b bs =>
    show runDecodeAux (bs.length + 1) (b :: bs) t = _
    have hlt := decodeStep_emit_length h
    simp only [List.length_cons] at hlt
    rw [runDecodeAux_succ_emit h, runDecodeAux_eq_of_le bs.length rest (by omega)]

/-- The decode loop neither invents nor drops bytes: the emitted raw bytes
followed by the remaining buffer reconstruct the starting buffer. -/
theorem runDecode_conserve : ∀ (n : Nat) (buf : List Nat), buf.length ≤ n → ∀ t,
    rawBytesConcat (runDecode buf t).1 ++ (runDecode buf t).2 = buf := by
  intro n
  induction n using Nat.strong_induction_on with
  | _ n ih =>
    intro buf hle t
    cases hstep : decodeStep buf t with
    | wait => rw [runDecode_wait hstep]; simp [rawBytesConcat]
    | emit ev rest =>
      obtain ⟨nm, raw⟩ := ev
      rw [runDecode_emit hstep]
      have hlt := decodeStep_emit_length hstep
      obtain ⟨happ, -⟩ := decodeStep_emit_spec hstep
      have hr : rawBytesConcat (runDecode rest t).1 ++ (runDecode rest t).2 = rest := by
        cases n with
        | zero => omega
        | succ m => exact ih m (by omega) rest (by omega) t
      calc rawBytesConcat ((nm, raw) :: (runDecode rest t).1) ++ (runDecode rest t).2
          = raw ++ (rawBytesConcat (runDecode rest t).1 ++ (runDecode rest t).2) := by
            simp [rawBytesConcat, List.append_assoc]
        _ = raw ++ rest := by rw [hr]
        _ = buf := happ

/-! ## Claim theorems -/

/-- C1 (amended): for every escape byte-sequence `s` in the
`ESCAPE_SEQUENCES` table, splitting at `k = 1` works as described: feeding
`s[0:1]` (the lone escape byte) to a fresh `KeyMapper` via `parse_input` with
the timeout signal false yields no decoded events, and then feeding `s[1:]`
yields exactly one event whose key name is the table's name for `s` and whose
`raw_bytes` equal `s`.  (For split points `k ≥ 2` the first chunk already
emits an `M-<char>` event, because the second byte of every table sequence is
printable; see the counterexample.) -/
theorem split_sequence_at_first_byte :
    ∀ p ∈ escapeSequences,
      parseInput [] (p.1.take 1) false = ([], p.1.take 1) ∧
      parseInput (p.1.take 1) (p.1.drop 1) false = ([(p.2, p.1)], []) := by decide

theorem split_sequence_at_first_byte_witness :
    (([27, 91, 65], "Up") ∈ escapeSequences) ∧
      (parseInput [] (List.take 1 [27, 91, 65]) false = ([], List.take 1 [27, 91, 65]) ∧
       parseInput (List.take 1 [27, 91, 65]) (List.drop 1 [27, 91, 65]) false =
         ([("Up", [27, 91, 65])], [])) :=
  ⟨by decide, split_sequence_at_first_byte ([27, 91, 65], "Up") (by decide)⟩

/-- C1 (counterexample): the table entry `ESC [ A` (`Up`) split at `k = 2`
refutes the claim: the first chunk `ESC [` already yields a decoded event
(`M-[`), not no events, because `[` is printable and `parse_input` turns
`ESC` + printable into an Alt-key event as soon as both bytes are present. -/
theorem split_sequence_midway_counterexample :
    (([27, 91, 65], "Up") ∈ escapeSequences) ∧ 1 ≤ 2 ∧ 2 < List.length [27, 91, 65] ∧
      (parseInput [] (List.take 2 [27, 91, 65]) false).1 = [("M-[", [27, 91])] := by decide

/-- C2: for every carry-over buffer state, input chunk, filtering mode and
timeout signal, the concatenation of the `raw_bytes` of all events returned
by `parse_input`, followed by the remaining carry-over buffer, equals the
previous buffer followed by the input chunk (after `ResponseFilter` removal
when filtering is enabled): decoding neither invents, drops nor reorders
bytes. -/
theorem parse_input_conserves_bytes (filterResponses : Bool) (buffer data : List Nat)
    (t : Bool) :
    rawBytesConcat (parseInputFiltered filterResponses buffer data t).1 ++
      (parseInputFiltered filterResponses buffer data t).2 =
    buffer ++ (if filterResponses then responseFilter data else data) := by
  unfold parseInputFiltered
  exact runDecode_conserve
    (buffer ++ (if filterResponses then responseFilter data else data)).length _ le_rfl _

/-- C8: feeding the single escape byte to a fresh `KeyMapper` via
`parse_input` with the timeout signal false yields no events and leaves the
byte buffered; a subsequent `flush()` yields exactly one `Escape` event with
`raw_bytes` `0x1b` and empties the buffer. -/
theorem lone_escape_waits_then_flushes :
    parseInput [] [27] false = ([], [27]) ∧
    flushBuffer [27] = ([("Escape", [27])], []) := by decide

/-- C9: the decode loop of `parse_input` always makes progress: on any
buffer, one iteration either stops to wait for more input or emits an event
that consumes at least one buffered byte; consequently fuel equal to the
buffer length computes the loop's fixed point (the loop terminates on every
finite buffer and input chunk, and no input byte aborts decoding). -/
theorem decode_loop_terminates (buf : List Nat) (t : Bool) :
    (decodeStep buf t = .wait ∨
      ∃ ev rest, decodeStep buf t = .emit ev rest ∧ rest.length < buf.length) ∧
    (∀ fuel, buf.length ≤ fuel → runDecodeAux fuel buf t = runDecode buf t) := by
  constructor
  · cases hstep : decodeStep buf t with
    | wait => exact Or.inl rfl
    | emit ev rest => exact Or.inr ⟨ev, rest, rfl, decodeStep_emit_length hstep⟩
  · intro fuel hle
    exact runDecodeAux_eq_of_le fuel buf hle

theorem decode_loop_terminates_witness :
    (List.length [27, 91, 65] ≤ 5) ∧
      runDecodeAux 5 [27, 91, 65] false = runDecode [27, 91, 65] false :=
  ⟨by decide, (decode_loop_terminates [27, 91, 65] false).2 5 (by decide)⟩

/-! ## Lemmas for the UTF-8 decode path -/

theorem specialKeys_none_of_high {b : Nat} (h : 128 ≤ b) : specialKeys b = none := by
  unfold specialKeys
  rw [if_neg (by omega), if_neg (by omega), if_neg (by omega), if_neg (by omega),
      if_neg (by omega), if_neg (by omega)]

theorem controlChars_none_of_high {b : Nat} (h : 128 ≤ b) : controlChars b = none := by
  unfold controlChars
  rw [if_neg (by omega)]

theorem land224_iff : ∀ b : Nat, b < 256 → ((b &&& 224 = 192) ↔ (192 ≤ b ∧ b < 224)) := by
  decide

theorem land240_iff : ∀ b : Nat, b < 256 → ((b &&& 240 = 224) ↔ (224 ≤ b ∧ b < 240)) := by
  decide

theorem land248_iff : ∀ b : Nat, b < 256 → ((b &&& 248 = 240) ↔ (240 ≤ b ∧ b < 248)) := by
  decide

theorem utf8Len_two {b : Nat} (h1 : 192 ≤ b) (h2 : b ≤ 223) : utf8Len b = some 2 := by
  unfold utf8Len
  rw [if_pos ((land224_iff b (by omega)).mpr (by omega))]

theorem utf8Len_three {b : Nat} (h1 : 224 ≤ b) (h2 : b ≤ 239) : utf8Len b = some 3 := by
  unfold utf8Len
  rw [if_neg (by rw [land224_iff b (by omega)]; omega),
      if_pos ((land240_iff b (by omega)).mpr (by omega))]

theorem utf8Len_four {b : Nat} (h1 : 240 ≤ b) (h2 : b ≤ 247) : utf8Len b = some 4 := by
  unfold utf8Len
  rw [if_neg (by rw [land224_iff b (by omega)]; omega),
      if_neg (by rw [land240_iff b (by omega)]; omega),
      if_pos ((land248_iff b (by omega)).mpr (by omega))]

/-- In the multi-byte path (`byte_val >= 0x80` with a recognized length
indicator), a buffer shorter than the indicated length makes the loop wait. -/
theorem decodeStep_utf8_wait (b : Nat) (bs : List Nat) (t : Bool) (len : Nat)
    (hb : 128 ≤ b) (hlen : utf8Len b = some len)
    (hshort : (b :: bs).length < len) : decodeStep (b :: bs) t = .wait := by
  simp only [decodeStep]
  rw [if_neg (show ¬b = 27 by omega), specialKeys_none_of_high hb,
      controlChars_none_of_high hb]
  dsimp only
  rw [if_neg (show ¬(32 ≤ b ∧ b ≤ 126) by omega), if_pos hb, hlen]
  dsimp only
  rw [if_pos hshort]

/-- In the multi-byte path with enough buffered bytes and a successful strict
decode, the loop emits the decoded character with its exact source bytes. -/
theorem decodeStep_utf8_emit (b : Nat) (bs : List Nat) (t : Bool) (len cp : Nat)
    (hb : 128 ≤ b) (hlen : utf8Len b = some len)
    (hlong : ¬(b :: bs).length < len)
    (hdec : utf8DecodeBytes (List.take len (b :: bs)) = some cp) :
    decodeStep (b :: bs) t =
      .emit (charString cp, List.take len (b :: bs)) (List.drop len (b :: bs)) := by
  simp only [decodeStep]
  rw [if_neg (show ¬b = 27 by omega), specialKeys_none_of_high hb,
      controlChars_none_of_high hb]
  dsimp only
  rw [if_neg (show ¬(32 ≤ b ∧ b ≤ 126) by omega), if_pos hb, hlen]
  dsimp only
  rw [if_neg hlong, hdec]

/-- C7: for every Unicode code point whose UTF-8 encoding is N bytes
(N in 2..4), feeding the full encoding to a fresh `KeyMapper` yields exactly
one event whose key name is the character and whose `raw_bytes` are the N
input bytes; feeding only the first N−1 bytes yields no event (the decoder
waits), and feeding the Nth byte then completes exactly that one event. -/
theorem utf8_roundtrip (cp : Nat) (h : ValidMultibyteCP cp) :
    2 ≤ (utf8Encode cp).length ∧ (utf8Encode cp).length ≤ 4 ∧
    parseInput [] (utf8Encode cp) false = ([(charString cp, utf8Encode cp)], []) ∧
    parseInput [] ((utf8Encode cp).take ((utf8Encode cp).length - 1)) false =
      ([], (utf8Encode cp).take ((utf8Encode cp).length - 1)) ∧
    parseInput ((utf8Encode cp).take ((utf8Encode cp).length - 1))
        ((utf8Encode cp).drop ((utf8Encode cp).length - 1)) false =
      ([(charString cp, utf8Encode cp)], []) := by
  rcases h with ⟨hlo, hhi⟩ | ⟨hlo, hhi, hns⟩ | ⟨hlo, hhi⟩
  · -- two-byte encodings
    have henc : utf8Encode cp = [192 + cp / 64, 128 + cp % 64] := by
      unfold utf8Encode
      rw [if_neg (by omega), if_pos (by omega)]
    have hdec : utf8DecodeBytes [192 + cp / 64, 128 + cp % 64] = some cp := by
      unfold utf8DecodeBytes
      dsimp only
      rw [if_pos ⟨by omega, by omega, by unfold isCont; omega⟩]
      exact congrArg some (by omega)
    have hstep : decodeStep [192 + cp / 64, 128 + cp % 64] false =
        .emit (charString cp, [192 + cp / 64, 128 + cp % 64]) [] := by
      simpa using decodeStep_utf8_emit (192 + cp / 64) [128 + cp % 64] false 2 cp
        (by omega) (utf8Len_two (by omega) (by omega)) (by simp) (by simpa using hdec)
    have hwait : decodeStep [192 + cp / 64] false = .wait :=
      decodeStep_utf8_wait (192 + cp / 64) [] false 2
        (by omega) (utf8Len_two (by omega) (by omega)) (by simp)
    rw [henc]
    refine ⟨by simp, by simp, ?_, ?_, ?_⟩
    · show runDecode _ false = _
      rw [List.nil_append, runDecode_emit hstep]
      rfl
    · show runDecode _ false = _
      simp only [List.length_cons, List.length_nil, List.take_succ_cons, List.take_zero,
        List.nil_append]
      rw [runDecode_wait hwait]
    · show runDecode _ false = _
      simp only [List.length_cons, List.length_nil, List.take_succ_cons, List.take_zero,
        List.drop_succ_cons, List.drop_zero]
      rw [List.singleton_append, runDecode_emit hstep]
      rfl
  · -- three-byte encodings
    have henc : utf8Encode cp = [224 + cp / 4096, 128 + cp / 64 % 64, 128 + cp % 64] := by
      unfold utf8Encode
      rw [if_neg (by omega), if_neg (by omega), if_pos (by omega)]
    have hdec :
        utf8DecodeBytes [224 + cp / 4096, 128 + cp / 64 % 64, 128 + cp % 64] = some cp := by
      unfold utf8DecodeBytes
      dsimp only
      rw [if_pos ⟨by omega, by omega, by unfold isCont; omega, by unfold isCont; omega⟩]
      have hE : (224 + cp / 4096 - 224) * 4096 + (128 + cp / 64 % 64 - 128) * 64 +
          (128 + cp % 64 - 128) = cp := by omega
      rw [hE, if_pos ⟨by omega, hns⟩]
    have hstep : decodeStep [224 + cp / 4096, 128 + cp / 64 % 64, 128 + cp % 64] false =
        .emit (charString cp, [224 + cp / 4096, 128 + cp / 64 % 64, 128 + cp % 64]) [] := by
      simpa using decodeStep_utf8_emit (224 + cp / 4096) [128 + cp / 64 % 64, 128 + cp % 64]
        false 3 cp
        (by omega) (utf8Len_three (by omega) (by omega)) (by simp) (by simpa using hdec)
    have hwait : decodeStep [224 + cp / 4096, 128 + cp / 64 % 64] false = .wait :=
      decodeStep_utf8_wait (224 + cp / 4096) [128 + cp / 64 % 64] false 3 (by omega)
        (utf8Len_three (by omega) (by omega)) (by simp)
    rw [henc]
    refine ⟨by simp, by simp, ?_, ?_, ?_⟩
    · show runDecode _ false = _
      rw [List.nil_append, runDecode_emit hstep]
      rfl
    · show runDecode _ false = _
      simp only [List.length_cons, List.length_nil, List.take_succ_cons, List.take_zero,
        List.nil_append]
      rw [runDecode_wait hwait]
    · show runDecode _ false = _
      simp only [List.length_cons, List.length_nil, List.take_succ_cons, List.take_zero,
        List.drop_succ_cons, List.drop_zero]
      rw [show [224 + cp / 4096, 128 + cp / 64 % 64] ++ [128 + cp % 64] =
        [224 + cp / 4096, 128 + cp / 64 % 64, 128 + cp % 64] from rfl, runDecode_emit hstep]
      rfl
  · -- four-byte encodings
    have henc : utf8Encode cp =
        [240 + cp / 262144, 128 + cp / 4096 % 64, 128 + cp / 64 % 64, 128 + cp % 64] := by
      unfold utf8Encode
      rw [if_neg (by omega), if_neg (by omega), if_neg (by omega)]
    have hdec : utf8DecodeBytes
        [240 + cp / 262144, 128 + cp / 4096 % 64, 128 + cp / 64 % 64, 128 + cp % 64] =
        some cp := by
      unfold utf8DecodeBytes
      dsimp only
      rw [if_pos ⟨by omega, by omega, by unfold isCont; omega, by unfold isCont; omega,
        by unfold isCont; omega⟩]
      have hE : (240 + cp / 262144 - 240) * 262144 + (128 + cp / 4096 % 64 - 128) * 4096 +
          (128 + cp / 64 % 64 - 128) * 64 + (128 + cp % 64 - 128) = cp := by omega
      rw [hE, if_pos ⟨by omega, by omega⟩]
    have hstep : decodeStep
        [240 + cp / 262144, 128 + cp / 4096 % 64, 128 + cp / 64 % 64, 128 + cp % 64] false =
        .emit (charString cp,
          [240 + cp / 262144, 128 + cp / 4096 % 64, 128 + cp / 64 % 64, 128 + cp % 64]) [] := by
      simpa using decodeStep_utf8_emit (240 + cp / 262144)
        [128 + cp / 4096 % 64, 128 + cp / 64 % 64, 128 + cp % 64] false 4 cp
        (by omega) (utf8Len_four (by omega) (by omega)) (by simp) (by simpa using hdec)
    have hwait : decodeStep [240 + cp / 262144, 128 + cp / 4096 % 64, 128 + cp / 64 % 64]
        false = .wait :=
      decodeStep_utf8_wait (240 + cp / 262144) [128 + cp / 4096 % 64, 128 + cp / 64 % 64]
        false 4 (by omega)
        (utf8Len_four (by omega) (by omega)) (by simp)
    rw [henc]
    refine ⟨by simp, by simp, ?_, ?_, ?_⟩
    · show runDecode _ false = _
      rw [List.nil_append, runDecode_emit hstep]
      rfl
    · show runDecode _ false = _
      simp only [List.length_cons, List.length_nil, List.take_succ_cons, List.take_zero,
        List.nil_append]
      rw [runDecode_wait hwait]
    · show runDecode _ false = _
      simp only [List.length_cons, List.length_nil, List.take_succ_cons, List.take_zero,
        List.drop_succ_cons, List.drop_zero]
      rw [show [240 + cp / 262144, 128 + cp / 4096 % 64, 128 + cp / 64 % 64] ++
          [128 + cp % 64] =
          [240 + cp / 262144, 128 + cp / 4096 % 64, 128 + cp / 64 % 64, 128 + cp % 64]
        from rfl, runDecode_emit hstep]
      rfl

theorem utf8_roundtrip_witness :
    ValidMultibyteCP 233 ∧
      parseInput [] (utf8Encode 233) false = ([(charString 233, utf8Encode 233)], []) :=
  ⟨by decide, (utf8_roundtrip 233 (by decide)).2.2.1⟩

/-! ## Lemmas for the response filter -/

theorem matchAtoms_lit27_none {pr : List PatAtom} {x : Nat} {xs : List Nat} (hx : x ≠ 27) :
    matchAtoms (.lit 27 :: pr) (x :: xs) = none := by
  simp only [matchAtoms]
  rw [if_neg hx]

theorem removeAllAux_id {pr : List PatAtom} :
    ∀ (fuel : Nat) (xs : List Nat), (∀ b ∈ xs, b ≠ 27) →
      removeAllAux (.lit 27 :: pr) fuel xs = xs := by
  intro fuel
  induction fuel with
  | zero => intro xs h; cases xs <;> rfl
  | succ n ih =>
    intro xs h
    cases xs with
    | nil => rfl
    | cons x xs2 =>
      simp only [removeAllAux]
      rw [matchAtoms_lit27_none (h x (List.mem_cons_self x xs2))]
      dsimp only
      rw [ih xs2 (fun b hb => h b (List.mem_cons_of_mem x hb))]

theorem removeAll_id {pr : List PatAtom} {xs : List Nat} (h : ∀ b ∈ xs, b ≠ 27) :
    removeAll (.lit 27 :: pr) xs = xs :=
  removeAllAux_id xs.length xs h

/-- Every response pattern begins with the literal escape byte, so filtering
leaves an escape-free byte string untouched. -/
theorem responseFilter_id {xs : List Nat} (h : ∀ b ∈ xs, b ≠ 27) :
    responseFilter xs = xs := by
  simp only [responseFilter, responsePatterns, List.foldl_cons, List.foldl_nil]
  simp only [removeAll_id h]

/-- C3 (amended): `ResponseFilter.filter` is idempotent on already-clean
input: whenever `filter(x) = x` — in particular for any `x` containing no
escape byte, where no pattern can match — `filter(filter(x)) = filter(x)`.
On general input idempotence can fail: removing one pattern class's match
can splice the surrounding bytes into a match of an earlier class that only
a second pass would remove (see the counterexample). -/
theorem response_filter_idempotent_on_clean (x : List Nat) :
    ((∀ b ∈ x, b ≠ 27) → responseFilter x = x) ∧
    (responseFilter x = x → responseFilter (responseFilter x) = responseFilter x) := by
  refine ⟨responseFilter_id, fun h => ?_⟩
  rw [h]
  exact h

theorem response_filter_idempotent_witness :
    responseFilter [104, 105] = [104, 105] ∧
      responseFilter (responseFilter [104, 105]) = responseFilter [104, 105] :=
  ⟨(response_filter_idempotent_on_clean [104, 105]).1 (by decide),
   (response_filter_idempotent_on_clean [104, 105]).2
     ((response_filter_idempotent_on_clean [104, 105]).1 (by decide))⟩

/-- C3 (counterexample): on `ESC [ 1 ; ESC [ 0 n 2 R` the first pass removes
only the embedded DSR-OK reply `ESC [ 0 n`, which splices the remaining
bytes into the cursor-position report `ESC [ 1 ; 2 R`; the CPR class was
already processed, so a second `filter` call removes it and
`filter(filter(x)) ≠ filter(x)`. -/
theorem response_filter_not_idempotent_counterexample :
    responseFilter (responseFilter [27, 91, 49, 59, 27, 91, 48, 110, 50, 82]) ≠
      responseFilter [27, 91, 49, 59, 27, 91, 48, 110, 50, 82] := by decide

/-! ## Lemmas for aggregation -/

/-- Invariant of the aggregation loop: every flushed group either has count 1
or an aggregatable key name, provided the open group does. -/
theorem aggregateAux_count {threshold : Int} :
    ∀ (us : List UserKeystroke) (cur : Option AggGroup) (prev : Option QTime),
      (∀ g0, cur = some g0 → g0.repeat_count = 1 ∨ g0.key_name ∈ aggregatableKeys) →
      ∀ g ∈ aggregateAux threshold us cur prev,
        g.repeat_count = 1 ∨ g.key_name ∈ aggregatableKeys := by
  intro us
  induction us with
  | nil =>
    intro cur prev hcur g hg
    cases cur with
    | none => simp [aggregateAux] at hg
    | some g0 =>
      simp only [aggregateAux, List.mem_singleton] at hg
      subst hg
      exact hcur g rfl
  | cons u rest ih =>
    intro cur prev hcur g hg
    have hfresh : ∀ g0,
        some (⟨u.orig_idx, u.timestamp, u.key_name, u.raw_bytes, 1, u.timestamp⟩ : AggGroup) =
          some g0 → g0.repeat_count = 1 ∨ g0.key_name ∈ aggregatableKeys := by
      intro g0 he
      injection he with he
      subst he
      exact Or.inl rfl
    cases cur with
    | none =>
      cases prev with
      | none =>
        simp only [aggregateAux, List.nil_append] at hg
        exact ih _ _ hfresh g hg
      | some p =>
        simp only [aggregateAux, List.nil_append] at hg
        exact ih _ _ hfresh g hg
    | some g0 =>
      cases prev with
      | none =>
        simp only [aggregateAux, List.singleton_append, List.mem_cons] at hg
        rcases hg with rfl | hg
        · exact hcur g rfl
        · exact ih _ _ hfresh g hg
      | some p =>
        simp only [aggregateAux] at hg
        split at hg
        · rename_i hcond
          refine ih _ _ ?_ g hg
          intro g1 he
          injection he with he
          subst he
          exact Or.inr (by dsimp only; rw [hcond.1]; exact hcond.2.1)
        · rcases List.mem_cons.mp hg with rfl | hg
          · exact hcur g rfl
          · exact ih _ _ hfresh g hg

/-- C5: with aggregation enabled and threshold 200 ms, five `Down`
keystrokes 50 ms apart collapse to a single group of count 5 whose first
timestamp is the first event's timestamp, and a sixth `Down` 900 ms later
starts a new group of count 1; moreover, for every log, a keystroke whose
name is not in `AGGREGATABLE_KEYS` is never merged into a group of count
greater than 1. -/
theorem aggregate_runs_and_nonaggregatable :
    aggregateKeystrokes 200 (userKeystrokes
        [⟨⟨0, 1⟩, "Down", [27, 91, 66]⟩, ⟨⟨1, 20⟩, "Down", [27, 91, 66]⟩,
         ⟨⟨2, 20⟩, "Down", [27, 91, 66]⟩, ⟨⟨3, 20⟩, "Down", [27, 91, 66]⟩,
         ⟨⟨4, 20⟩, "Down", [27, 91, 66]⟩, ⟨⟨22, 20⟩, "Down", [27, 91, 66]⟩]) =
      [⟨0, ⟨0, 1⟩, "Down", [27, 91, 66], 5, ⟨4, 20⟩⟩,
       ⟨5, ⟨22, 20⟩, "Down", [27, 91, 66], 1, ⟨22, 20⟩⟩] ∧
    ∀ (log : List Keystroke) (threshold : Int) (g : AggGroup),
      g ∈ aggregateKeystrokes threshold (userKeystrokes log) →
      g.key_name ∉ aggregatableKeys → g.repeat_count = 1 := by
  constructor
  · decide
  · intro log threshold g hg hna
    rcases aggregateAux_count (userKeystrokes log) none none
        (fun g0 he => Option.noConfusion he) g hg with h1 | h2
    · exact h1
    · exact absurd h2 hna

theorem aggregate_nonaggregatable_witness :
    ((⟨0, ⟨0, 1⟩, "a", [97], 1, ⟨0, 1⟩⟩ : AggGroup) ∈
        aggregateKeystrokes 200
          (userKeystrokes [⟨⟨0, 1⟩, "a", [97]⟩, ⟨⟨1, 100⟩, "a", [97]⟩])) ∧
      ("a" ∉ aggregatableKeys) ∧
      (⟨0, ⟨0, 1⟩, "a", [97], 1, ⟨0, 1⟩⟩ : AggGroup).repeat_count = 1 :=
  ⟨by decide, by decide,
   aggregate_runs_and_nonaggregatable.2 [⟨⟨0, 1⟩, "a", [97]⟩, ⟨⟨1, 100⟩, "a", [97]⟩] 200
     ⟨0, ⟨0, 1⟩, "a", [97], 1, ⟨0, 1⟩⟩ (by decide) (by decide)⟩

/-- C6 (amended): on a filtered log with successive delays
100, 100, 100, 100, 5000 ms and `min_delay = 50`, `max_delay = 2000`,
`_calculate_median_delay` returns 100 (the 5000 ms outlier is excluded);
and for every log for which no inter-keystroke delay lies inside
`[min_delay, max_delay]` (which subsumes logs with fewer than two
keystrokes), it returns the fixed default 100.  A log with exactly one
usable delay returns that delay, not the default (see the
counterexample). -/
theorem median_delay_computation :
    calculateMedianDelay
      [⟨⟨0, 1⟩, "a", [97]⟩, ⟨⟨1, 10⟩, "b", [98]⟩, ⟨⟨2, 10⟩, "c", [99]⟩,
       ⟨⟨3, 10⟩, "d", [100]⟩, ⟨⟨4, 10⟩, "e", [101]⟩, ⟨⟨54, 10⟩, "f", [102]⟩] 50 2000 = 100 ∧
    ∀ (log : List Keystroke) (minDelay maxDelay : Int),
      collectDelays minDelay maxDelay (userKeystrokes log) none = [] →
      calculateMedianDelay log minDelay maxDelay = 100 := by
  constructor
  · decide
  · intro log minDelay maxDelay h
    unfold calculateMedianDelay
    dsimp only
    by_cases hlen : (userKeystrokes log).length < 2
    · rw [if_pos hlen]
    · rw [if_neg hlen, h, if_pos rfl]

theorem median_delay_default_witness :
    collectDelays 50 2000
        (userKeystrokes [⟨⟨0, 1⟩, "a", [97]⟩, ⟨⟨5, 1⟩, "b", [98]⟩]) none = [] ∧
      calculateMedianDelay [⟨⟨0, 1⟩, "a", [97]⟩, ⟨⟨5, 1⟩, "b", [98]⟩] 50 2000 = 100 :=
  ⟨by decide,
   median_delay_computation.2 [⟨⟨0, 1⟩, "a", [97]⟩, ⟨⟨5, 1⟩, "b", [98]⟩] 50 2000 (by decide)⟩

/-- C6 (counterexample): a log whose only inter-keystroke delay is 150 ms has
fewer than two usable delays, yet `_calculate_median_delay` returns 150 (the
median of the one-element delay list), not the fixed default 100: the
default is used only when the usable-delay list is empty. -/
theorem median_single_delay_counterexample :
    (collectDelays 50 2000
        (userKeystrokes [⟨⟨0, 1⟩, "a", [97]⟩, ⟨⟨3, 20⟩, "b", [98]⟩]) none).length < 2 ∧
    calculateMedianDelay [⟨⟨0, 1⟩, "a", [97]⟩, ⟨⟨3, 20⟩, "b", [98]⟩] 50 2000 = 150 ∧
    calculateMedianDelay [⟨⟨0, 1⟩, "a", [97]⟩, ⟨⟨3, 20⟩, "b", [98]⟩] 50 2000 ≠ 100 := by
  decide

/-- C4: on the log `a`, `C-g`, `b` (100 ms apart) with the frame key `C-g`
at index 1 listed in `frame_markers` (auto-frame off), the generated script
contains exactly one `@frame` line and no line beginning with the `C-g`
token; on the identical log with `frame_markers` empty, no `@frame` line is
emitted and the bare `C-g` token appears verbatim as a script line. -/
theorem frame_marker_emission :
    (generateLines [⟨⟨0, 1⟩, "a", [97]⟩, ⟨⟨1, 10⟩, "C-g", [7]⟩, ⟨⟨2, 10⟩, "b", [98]⟩]
        ⟨80, 24, false, [1], 50, 2000, none, none, "", "C-g", true, 200⟩).count "@frame" = 1 ∧
    (generateLines [⟨⟨0, 1⟩, "a", [97]⟩, ⟨⟨1, 10⟩, "C-g", [7]⟩, ⟨⟨2, 10⟩, "b", [98]⟩]
        ⟨80, 24, false, [1], 50, 2000, none, none, "", "C-g", true, 200⟩).countP
      (fun l => strPrefix "C-g" l) = 0 ∧
    (generateLines [⟨⟨0, 1⟩, "a", [97]⟩, ⟨⟨1, 10⟩, "C-g", [7]⟩, ⟨⟨2, 10⟩, "b", [98]⟩]
        defaultOptions).count "@frame" = 0 ∧
    "C-g" ∈ generateLines [⟨⟨0, 1⟩, "a", [97]⟩, ⟨⟨1, 10⟩, "C-g", [7]⟩, ⟨⟨2, 10⟩, "b", [98]⟩]
      defaultOptions := by decide

/-! ## Lemmas for the recorder's keystroke log -/

theorem markers_lt_length {frameKey : String} {st : RecState}
    (h : MarkersInv frameKey st) : ∀ i ∈ st.frame_markers, i < st.keystrokes.length := by
  intro i hi
  obtain ⟨k, hk, -⟩ := h.2 i hi
  by_contra hge
  rw [List.getElem?_eq_none (Nat.le_of_not_lt hge)] at hk
  exact Option.noConfusion hk

/-- `_log_keys` preserves the marker invariant and appends every decoded key
to the log. -/
theorem logKeys_inv (frameKey : String) (now : QTime) :
    ∀ (keys : List (String × List Nat)) (st : RecState), MarkersInv frameKey st →
      MarkersInv frameKey (logKeys frameKey st now keys) ∧
      (logKeys frameKey st now keys).keystrokes.length =
        st.keystrokes.length + keys.length := by
  intro keys
  induction keys with
  | nil =>
    intro st h
    exact ⟨h, by simp [logKeys]⟩
  | cons kv rest ih =>
    intro st h
    have hlt := markers_lt_length h
    have hpres : ∀ i ∈ st.frame_markers,
        ∃ k, (st.keystrokes ++ [(⟨now, kv.1, kv.2⟩ : Keystroke)])[i]? = some k ∧
          k.key_name = frameKey := by
      intro i hi
      obtain ⟨k, hk, hname⟩ := h.2 i hi
      refine ⟨k, ?_, hname⟩
      rw [List.getElem?_append_left (hlt i hi)]
      exact hk
    by_cases hfk : kv.1 = frameKey
    · have e : logKeys frameKey st now (kv :: rest) =
          logKeys frameKey
            ⟨st.keystrokes ++ [⟨now, kv.1, kv.2⟩],
             st.frame_markers ++ [(st.keystrokes ++ [(⟨now, kv.1, kv.2⟩ : Keystroke)]).length - 1]⟩
            now rest := by
        simp only [logKeys, List.foldl_cons, if_pos hfk]
      rw [e]
      have hidx : (st.keystrokes ++ [(⟨now, kv.1, kv.2⟩ : Keystroke)]).length - 1 =
          st.keystrokes.length := by simp
      rw [hidx]
      have hinv2 : MarkersInv frameKey
          ⟨st.keystrokes ++ [⟨now, kv.1, kv.2⟩],
           st.frame_markers ++ [st.keystrokes.length]⟩ := by
        constructor
        · refine List.pairwise_append.mpr ⟨h.1, List.pairwise_singleton _ _, ?_⟩
          intro a ha b hb
          rw [List.mem_singleton] at hb
          subst hb
          exact hlt a ha
        · intro i hi
          rcases List.mem_append.mp hi with hi | hi
          · exact hpres i hi
          · rw [List.mem_singleton] at hi
            subst hi
            exact ⟨⟨now, kv.1, kv.2⟩, List.getElem?_concat_length _ _, hfk⟩
      obtain ⟨h1, h2⟩ := ih _ hinv2
      refine ⟨h1, ?_⟩
      rw [h2]
      simp only [List.length_append, List.length_cons, List.length_nil]
      omega
    · have e : logKeys frameKey st now (kv :: rest) =
          logKeys frameKey
            ⟨st.keystrokes ++ [⟨now, kv.1, kv.2⟩], st.frame_markers⟩ now rest := by
        simp only [logKeys, List.foldl_cons, if_neg hfk]
      rw [e]
      have hinv2 : MarkersInv frameKey
          ⟨st.keystrokes ++ [⟨now, kv.1, kv.2⟩], st.frame_markers⟩ := ⟨h.1, hpres⟩
      obtain ⟨h1, h2⟩ := ih _ hinv2
      refine ⟨h1, ?_⟩
      rw [h2]
      simp only [List.length_append, List.length_cons, List.length_nil]
      omega

theorem runLogAux_inv (frameKey : String) :
    ∀ (calls : List (QTime × List (String × List Nat))) (st : RecState),
      MarkersInv frameKey st →
      MarkersInv frameKey (calls.foldl (fun s c => logKeys frameKey s c.1 c.2) st) ∧
      (calls.foldl (fun s c => logKeys frameKey s c.1 c.2) st).keystrokes.length =
        st.keystrokes.length + (calls.map (fun c => c.2.length)).sum := by
  intro calls
  induction calls with
  | nil =>
    intro st h
    exact ⟨h, by simp⟩
  | cons c rest ih =>
    intro st h
    rw [List.foldl_cons]
    obtain ⟨h1, h2⟩ := logKeys_inv frameKey c.1 c.2 st h
    obtain ⟨h3, h4⟩ := ih _ h1
    refine ⟨h3, ?_⟩
    rw [h4, h2]
    simp only [List.map_cons, List.sum_cons]
    omega

/-- C10: after any sequence of `_log_keys` calls on a fresh recorder, the
frame-marker list is strictly increasing, every marker index is a valid
index into the keystroke log whose entry has the configured frame key as its
name, and every decoded key — marked or not — is appended to the log (the
log length equals the total number of decoded events, so markers never
replace log entries). -/
theorem frame_markers_invariant (frameKey : String)
    (calls : List (QTime × List (String × List Nat))) :
    (runLog frameKey calls).frame_markers.Pairwise (· < ·) ∧
    (∀ i ∈ (runLog frameKey calls).frame_markers,
      ∃ k, (runLog frameKey calls).keystrokes[i]? = some k ∧ k.key_name = frameKey) ∧
    (runLog frameKey calls).keystrokes.length = (calls.map (fun c => c.2.length)).sum := by
  have h0 : MarkersInv frameKey ⟨[], []⟩ := ⟨List.Pairwise.nil, by intro i hi; simp at hi⟩
  obtain ⟨⟨h1, h2⟩, h3⟩ := runLogAux_inv frameKey calls ⟨[], []⟩ h0
  exact ⟨h1, h2, by simpa using h3⟩

theorem frame_markers_invariant_witness :
    (1 ∈ (runLog "C-g" [(⟨0, 1⟩, [("a", [97]), ("C-g", [7])])]).frame_markers) ∧
      ∃ k, (runLog "C-g" [(⟨0, 1⟩, [("a", [97]), ("C-g", [7])])]).keystrokes[1]? = some k ∧
        k.key_name = "C-g" :=
  ⟨by decide,
   (frame_markers_invariant "C-g" [(⟨0, 1⟩, [("a", [97]), ("C-g", [7])])]).2.1 1 (by decide)⟩

end Betamax